import Mathlib

/-!
# Verification of the reminder manager

Shallow embedding of the repository's two components, `Reminder` and
`RemindersHandler` (src/RemindersHandler.ts together with the appended
Reminder class source).  JS strings are Lean `String`s; `toLowerCase` and
`includes` are modelled over the underlying character lists; a JS `throw`
of an `Error` is modelled with `Except`, paired with the post-state that
the statements executed before the `throw` produce.  Array indices coming
from callers are JS numbers and are modelled as `Int` (the claims quantify
over negative indices as well).
-/

/-- Model of `String.prototype.toLowerCase`: lowercase every character. -/
def jsToLowerCase (s : String) : String := String.mk (s.data.map Char.toLower)

/-- Helper for `jsIncludes`: does `sub` occur as a contiguous run inside `l`? -/
def jsIncludesGo : List Char → List Char → Bool
  | l, sub =>
    sub.isPrefixOf l ||
      match l with
      | [] => false
      | _ :: t => jsIncludesGo t sub

/-- Model of `s.includes(sub)`: `sub` occurs as a substring of `s`. -/
def jsIncludes (s sub : String) : Bool := jsIncludesGo s.data sub.data

/-- A thrown JS `Error` carrying its message. -/
inductive JsError where
  | error (message : String)
deriving Repr, DecidableEq

/-- `new Error("ReminderError: Invalid index")`, thrown by `getReminder`. -/
def invalidIndexError : JsError := JsError.error "ReminderError: Invalid index"

/-- `new Error("Not yet implemented")`, thrown by the tag setter and by
`Reminder.toggleCompletion`. -/
def notImplementedError : JsError := JsError.error "Not yet implemented"

/-- The `Reminder` record: `_description`, `_tag`, `_isCompleted`. -/
structure Reminder where
  description : String
  tag : String
  isCompleted : Bool
deriving Repr, DecidableEq

/-- The `Reminder` constructor.  It takes a third `isCompleted` argument but
assigns `this._isCompleted = false` unconditionally; the call site in
`addReminder` passes only two arguments (the third is `undefined`), hence the
`Option Bool`. -/
def Reminder.construct (description tag : String) (_isCompletedArg : Option Bool) : Reminder :=
  { description := description, tag := tag, isCompleted := false }

/-- The `description` setter: `this._description = description`. -/
def Reminder.setDescription (r : Reminder) (description : String) : Reminder :=
  { r with description := description }

/-- The `tag` setter: `this._tag = tag; throw new Error("Not yet implemented")`.
The assignment executes before the throw, so the post-state carries the new
tag, paired with the thrown error. -/
def Reminder.setTag (r : Reminder) (tag : String) : Except JsError Unit × Reminder :=
  (Except.error notImplementedError, { r with tag := tag })

/-- `Reminder.toggleCompletion`:
`this._isCompleted = this.isCompleted; throw new Error("Not yet implemented")`.
The assignment writes the field's current value back to itself, then the
throw fires. -/
def Reminder.toggleCompletion (r : Reminder) : Except JsError Unit × Reminder :=
  (Except.error notImplementedError, { r with isCompleted := r.isCompleted })

/-- The handler's state: the private `_reminders` array. -/
structure RemindersHandler where
  _reminders : List Reminder
deriving Repr, DecidableEq

/-- `new RemindersHandler()`: starts with no reminders. -/
def RemindersHandler.construct : RemindersHandler := { _reminders := [] }

/-- `size()`: `this._reminders.length`, as a JS number. -/
def RemindersHandler.size (h : RemindersHandler) : Int := h._reminders.length

/-- `isIndexValid(index)`:
`if (this.size() === 0) return false; if (index < 0 || index + 1 > this.size()) return false; return true;` -/
def RemindersHandler.isIndexValid (h : RemindersHandler) (index : Int) : Bool :=
  if h.size == 0 then false
  else if index < 0 || index + 1 > h.size then false
  else true

/-- Placeholder element for reads that the validity check already rules out
(`getD` never falls back to it under a valid index). -/
def defaultReminder : Reminder := { description := "", tag := "", isCompleted := false }

/-- `addReminder(description, tag)`: `new Reminder(description, tag)` pushed
onto the end of `_reminders`. -/
def RemindersHandler.addReminder (h : RemindersHandler) (description tag : String) :
    RemindersHandler :=
  { _reminders := h._reminders ++ [Reminder.construct description tag none] }

/-- `getReminder(index)`: throws `invalidIndexError` when the index is not
valid, otherwise returns `this._reminders[index]`. -/
def RemindersHandler.getReminder (h : RemindersHandler) (index : Int) :
    Except JsError Reminder :=
  if !(h.isIndexValid index) then Except.error invalidIndexError
  else Except.ok (h._reminders.getD index.toNat defaultReminder)

/-- `modifyReminder(index, description)`: silently returns when the index is
not valid, otherwise runs `reminder.description = description` on the element
at `index` (the description setter; it does not throw). -/
def RemindersHandler.modifyReminder (h : RemindersHandler) (index : Int)
    (description : String) : RemindersHandler :=
  if !(h.isIndexValid index) then h
  else
    { _reminders :=
        h._reminders.set index.toNat
          ((h._reminders.getD index.toNat defaultReminder).setDescription description) }

/-- `toggleCompletion(index)` on the handler: silently returns when the index
is not valid, otherwise calls `reminder.toggleCompletion()` on the element at
`index` and lets its outcome propagate. -/
def RemindersHandler.toggleCompletion (h : RemindersHandler) (index : Int) :
    Except JsError Unit × RemindersHandler :=
  if !(h.isIndexValid index) then (Except.ok (), h)
  else
    let p := (h._reminders.getD index.toNat defaultReminder).toggleCompletion
    (p.1, { _reminders := h._reminders.set index.toNat p.2 })

/-- `searchTags(keyword)`: reminders whose lowercased tag equals `keyword`. -/
def RemindersHandler.searchTags (h : RemindersHandler) (keyword : String) : List Reminder :=
  h._reminders.filter (fun reminder => jsToLowerCase reminder.tag == keyword)

/-- `searchDescriptions(keyword)`: reminders whose lowercased description
contains `keyword`. -/
def RemindersHandler.searchDescriptions (h : RemindersHandler) (keyword : String) :
    List Reminder :=
  h._reminders.filter (fun reminder => jsIncludes (jsToLowerCase reminder.description) keyword)

/-- `search(keyword)`: lowercase the keyword, take the exact tag matches, and
only when there are none fall back to the description matches. -/
def RemindersHandler.search (h : RemindersHandler) (keyword : String) : List Reminder :=
  let keywordLower := jsToLowerCase keyword
  let results := h.searchTags keywordLower
  if results.length == 0 then h.searchDescriptions keywordLower else results

/-- The `RemindersGroupingByTag` object, as the insertion-ordered association
list of its string keys and array values. -/
abbrev RemindersGroupingByTag := List (String × List Reminder)

/-- `groupings[tag]` is truthy, i.e. the key is present. -/
def groupingsHasKey (g : RemindersGroupingByTag) (tag : String) : Bool :=
  g.any (fun p => p.1 == tag)

/-- `groupings[tag].push(reminder)`: append to the array stored under `tag`. -/
def groupingsPush (g : RemindersGroupingByTag) (tag : String) (r : Reminder) :
    RemindersGroupingByTag :=
  g.map (fun p => if p.1 == tag then (p.1, p.2 ++ [r]) else p)

/-- One iteration of the `groupByTag` loop body for reminder `r`:
`const tag = reminder.tag.toLowerCase(); if (!groupings[tag]) groupings[tag] = []; groupings[tag].push(reminder);` -/
def groupingsStep (g : RemindersGroupingByTag) (r : Reminder) : RemindersGroupingByTag :=
  let tag := jsToLowerCase r.tag
  let g2 := if groupingsHasKey g tag then g else g ++ [(tag, [])]
  groupingsPush g2 tag r

/-- `groupByTag()`: fold the loop body over `_reminders`, starting from the
empty object. -/
def RemindersHandler.groupByTag (h : RemindersHandler) : RemindersGroupingByTag :=
  h._reminders.foldl groupingsStep []

/-- Key lookup in a grouping object: value of the first matching key. -/
def lookupGroup : RemindersGroupingByTag → String → Option (List Reminder)
  | [], _ => none
  | p :: rest, k => if p.1 == k then some p.2 else lookupGroup rest k

/-!
A small heap of JS arrays, to state the aliasing facts about the `reminders`
accessor (`return [...this._reminders];`): each cell is one array object
holding reminder-object ids, and the handler's `_reminders` field is a
reference to one cell.  The spread in the accessor allocates a fresh array
with the same element ids.
-/

/-- Heap of JS array objects; each cell holds reminder-object ids. -/
structure JsHeap where
  cells : List (List Nat)
deriving Repr, DecidableEq

/-- Allocate a fresh array with the given contents; returns its reference. -/
def JsHeap.alloc (hp : JsHeap) (contents : List Nat) : JsHeap × Nat :=
  ({ cells := hp.cells ++ [contents] }, hp.cells.length)

/-- Read the array behind a reference. -/
def JsHeap.read (hp : JsHeap) (ref : Nat) : List Nat := hp.cells.getD ref []

/-- Overwrite the array behind a reference. -/
def JsHeap.write (hp : JsHeap) (ref : Nat) (contents : List Nat) : JsHeap :=
  { cells := hp.cells.set ref contents }

/-- `arr.push(x)` on the array behind `ref`. -/
def JsHeap.push (hp : JsHeap) (ref : Nat) (x : Nat) : JsHeap :=
  hp.write ref (hp.read ref ++ [x])

/-- `arr.pop()` on the array behind `ref`. -/
def JsHeap.pop (hp : JsHeap) (ref : Nat) : JsHeap :=
  hp.write ref (hp.read ref).dropLast

/-- The `reminders` accessor, `return [...this._reminders];`: allocate a new
array whose elements are the same reminder-object ids as the handler's own
`_reminders` array behind `remindersRef`. -/
def remindersAccessor (hp : JsHeap) (remindersRef : Nat) : JsHeap × Nat :=
  hp.alloc (hp.read remindersRef)

/-- The state-changing operations a client can perform on a handler and on
the reminder objects it hands out: the handler's own mutators, plus the
object-level setters reached through a reminder obtained from the handler
(those mutate the shared stored object).  The state component of a throwing
operation is kept; the thrown error is dropped here because only the
reachable states matter. -/
inductive HandlerOp where
  | add (description tag : String)
  | modify (index : Int) (description : String)
  | toggle (index : Int)
  | setDescriptionAt (index : Int) (description : String)
  | setTagAt (index : Int) (tag : String)
deriving Repr

/-- Apply one operation to the handler state. -/
def RemindersHandler.applyOp (h : RemindersHandler) (op : HandlerOp) : RemindersHandler :=
  match op with
  | .add d t => h.addReminder d t
  | .modify i d => h.modifyReminder i d
  | .toggle i => (h.toggleCompletion i).2
  | .setDescriptionAt i d =>
      if h.isIndexValid i then
        { _reminders :=
            h._reminders.set i.toNat
              ((h._reminders.getD i.toNat defaultReminder).setDescription d) }
      else h
  | .setTagAt i t =>
      if h.isIndexValid i then
        { _reminders :=
            h._reminders.set i.toNat
              ((h._reminders.getD i.toNat defaultReminder).setTag t).2 }
      else h

/-- Run a list of operations from a given state. -/
def RemindersHandler.runOps (h : RemindersHandler) (ops : List HandlerOp) : RemindersHandler :=
  ops.foldl RemindersHandler.applyOp h

/-! ## Helper lemmas -/

theorem isIndexValid_char (h : RemindersHandler) (i : Int) :
    h.isIndexValid i = true ↔ 0 ≤ i ∧ i < h.size := by
  rcases h with ⟨l⟩
  simp only [RemindersHandler.isIndexValid, RemindersHandler.size]
  split_ifs with h0 h1
  · simp only [beq_iff_eq] at h0
    constructor
    · intro hc; exact absurd hc (by simp)
    · intro hc; omega
  · simp only [Bool.or_eq_true, decide_eq_true_eq] at h1
    constructor
    · intro hc; exact absurd hc (by simp)
    · intro hc; omega
  · simp only [beq_iff_eq] at h0
    simp only [Bool.or_eq_true, decide_eq_true_eq] at h1
    constructor
    · intro _; omega
    · intro _; rfl

theorem isIndexValid_toNat_lt {h : RemindersHandler} {i : Int}
    (hv : h.isIndexValid i = true) : i.toNat < h._reminders.length := by
  have := (isIndexValid_char h i).mp hv
  simp only [RemindersHandler.size] at this
  omega

theorem isIndexValid_false_of_not {h : RemindersHandler} {i : Int}
    (hnv : ¬(0 ≤ i ∧ i < h.size)) : h.isIndexValid i = false := by
  have := isIndexValid_char h i
  cases hb : h.isIndexValid i
  · rfl
  · exact absurd (this.mp hb) hnv

theorem addReminder_size_foldl (calls : List (String × String)) :
    ∀ h : RemindersHandler,
      (calls.foldl (fun acc c => acc.addReminder c.1 c.2) h).size = h.size + calls.length := by
  induction calls with
  | nil => intro h; simp [RemindersHandler.size]
  | cons c rest ih =>
      intro h
      simp only [List.foldl_cons, List.length_cons]
      rw [ih]
      simp only [RemindersHandler.addReminder, RemindersHandler.size,
        List.length_append, List.length_cons, List.length_nil]
      push_cast
      ring

/-! ## Claim theorems -/

/-- Claim C6: for every handler state and every integer index `i`, including
negative values and `i = size()`, `isIndexValid i` returns `true` exactly when
`0 <= i < size()` (the function is pure, so it has no side effects). -/
theorem isIndexValid_spec (h : RemindersHandler) (i : Int) :
    h.isIndexValid i = true ↔ 0 ≤ i ∧ i < h.size :=
  isIndexValid_char h i

/-- Claim C7: `addReminder description tag` always succeeds, appends a reminder
with that description, that tag and `isCompleted = false` to the end of the
sequence, grows `size()` by exactly one, and a fresh handler after any list of
`addReminder` calls has `size()` equal to the number of calls. -/
theorem addReminder_spec (h : RemindersHandler) (d t : String) :
    (h.addReminder d t)._reminders
      = h._reminders ++ [{ description := d, tag := t, isCompleted := false }]
    ∧ (h.addReminder d t).size = h.size + 1
    ∧ ∀ calls : List (String × String),
        (calls.foldl (fun acc c => acc.addReminder c.1 c.2) RemindersHandler.construct).size
          = calls.length := by
  refine ⟨rfl, ?_, ?_⟩
  · simp [RemindersHandler.addReminder, RemindersHandler.size]
  · intro calls
    rw [addReminder_size_foldl]
    simp [RemindersHandler.construct, RemindersHandler.size]

/-- Claim C3: `getReminder i` throws the invalid-index error exactly when
`isIndexValid i` is false; on a valid index it returns precisely the reminder
stored at position `i` of the current state; the error value is returned
unmodified; and no other throwing operation (`toggleCompletion` on the
handler, the tag setter or `toggleCompletion` on a reminder) ever produces the
invalid-index error. -/
theorem getReminder_spec (h : RemindersHandler) (i : Int) :
    (h.isIndexValid i = false → h.getReminder i = Except.error invalidIndexError)
    ∧ (h.isIndexValid i = true →
        ∃ r, h.getReminder i = Except.ok r ∧ h._reminders[i.toNat]? = some r)
    ∧ (∀ j : Int, (h.toggleCompletion j).1 ≠ Except.error invalidIndexError)
    ∧ (∀ r : Reminder, ∀ t : String, (r.setTag t).1 ≠ Except.error invalidIndexError)
    ∧ (∀ r : Reminder, (r.toggleCompletion).1 ≠ Except.error invalidIndexError) := by
  have hne : notImplementedError ≠ invalidIndexError := by
    simp only [notImplementedError, invalidIndexError, ne_eq, JsError.error.injEq]
    decide
  refine ⟨?_, ?_, ?_, ?_, ?_⟩
  · intro hnv
    simp [RemindersHandler.getReminder, hnv]
  · intro hv
    have hlt := isIndexValid_toNat_lt hv
    refine ⟨h._reminders.getD i.toNat defaultReminder, ?_, ?_⟩
    · simp [RemindersHandler.getReminder, hv]
    · simp [List.getD_eq_getElem?_getD, List.getElem?_eq_getElem hlt]
  · intro j
    simp only [RemindersHandler.toggleCompletion]
    split_ifs with hc
    · simp
    · simp only [Reminder.toggleCompletion, ne_eq, Except.error.injEq]
      exact fun hc2 => hne hc2
  · intro r t
    simp only [Reminder.setTag, ne_eq, Except.error.injEq]
    exact fun hc2 => hne hc2
  · intro r
    simp only [Reminder.toggleCompletion, ne_eq, Except.error.injEq]
    exact fun hc2 => hne hc2

/-- Witness for C3 at a concrete state: index 1 is invalid on a one-element
handler and index 0 returns the stored reminder. -/
theorem getReminder_spec_witness :
    (RemindersHandler.construct.addReminder "Buy milk" "grocery").getReminder 1
      = Except.error invalidIndexError
    ∧ ∃ r, (RemindersHandler.construct.addReminder "Buy milk" "grocery").getReminder 0
        = Except.ok r
        ∧ (RemindersHandler.construct.addReminder "Buy milk" "grocery")._reminders[(0 : Int).toNat]?
          = some r := by
  constructor
  · exact (getReminder_spec (RemindersHandler.construct.addReminder "Buy milk" "grocery") 1).1
      (by decide)
  · exact (getReminder_spec (RemindersHandler.construct.addReminder "Buy milk" "grocery") 0).2.1
      (by decide)

/-- Claim C5: `modifyReminder i d` on an invalid index changes nothing and
raises no error (the operation is total); on a valid index the reminder at `i`
gets description `d` while its tag, its completion flag, every other position
and the length of the sequence are unchanged. -/
theorem modifyReminder_spec (h : RemindersHandler) (i : Int) (d : String) :
    (h.isIndexValid i = false → h.modifyReminder i d = h)
    ∧ (h.isIndexValid i = true →
        (h.modifyReminder i d)._reminders.length = h._reminders.length
        ∧ (h.modifyReminder i d)._reminders[i.toNat]?.map Reminder.description = some d
        ∧ (h.modifyReminder i d)._reminders[i.toNat]?.map Reminder.tag
            = h._reminders[i.toNat]?.map Reminder.tag
        ∧ (h.modifyReminder i d)._reminders[i.toNat]?.map Reminder.isCompleted
            = h._reminders[i.toNat]?.map Reminder.isCompleted
        ∧ ∀ j : Nat, j ≠ i.toNat → (h.modifyReminder i d)._reminders[j]? = h._reminders[j]?) := by
  constructor
  · intro hnv
    simp [RemindersHandler.modifyReminder, hnv]
  · intro hv
    have hlt := isIndexValid_toNat_lt hv
    have hbody : (h.modifyReminder i d)._reminders
        = h._reminders.set i.toNat
            ((h._reminders.getD i.toNat defaultReminder).setDescription d) := by
      simp [RemindersHandler.modifyReminder, hv]
    refine ⟨?_, ?_, ?_, ?_, ?_⟩
    · rw [hbody]; simp
    · rw [hbody]
      simp [List.getElem?_set_self (by simpa using hlt), Reminder.setDescription]
    · rw [hbody]
      simp [List.getElem?_set_self (by simpa using hlt), Reminder.setDescription,
        List.getD_eq_getElem?_getD, List.getElem?_eq_getElem hlt]
    · rw [hbody]
      simp [List.getElem?_set_self (by simpa using hlt), Reminder.setDescription,
        List.getD_eq_getElem?_getD, List.getElem?_eq_getElem hlt]
    · intro j hj
      rw [hbody]
      exact List.getElem?_set_ne (fun hc => hj hc.symm)

/-- Witness for C5 at a concrete state: modifying index 5 of a one-element
handler is a no-op, and modifying index 0 rewrites only the description. -/
theorem modifyReminder_spec_witness :
    ((RemindersHandler.construct.addReminder "Buy milk" "grocery").modifyReminder 5 "x"
      = RemindersHandler.construct.addReminder "Buy milk" "grocery")
    ∧ (((RemindersHandler.construct.addReminder "Buy milk" "grocery").modifyReminder 0 "Buy eggs")._reminders[(0 : Int).toNat]?).map Reminder.description = some "Buy eggs" := by
  constructor
  · exact (modifyReminder_spec (RemindersHandler.construct.addReminder "Buy milk" "grocery")
      5 "x").1 (by decide)
  · exact ((modifyReminder_spec (RemindersHandler.construct.addReminder "Buy milk" "grocery")
      0 "Buy eggs").2 (by decide)).2.1

/-- Claim C4, evaluated against the code at a concrete failing input: on a
fresh handler holding one reminder (so index 0 is valid),
`toggleCompletion 0` does not flip `isCompleted` — the reminder method
assigns the field its own current value and then throws
`Error("Not yet implemented")` — so the flag stays `false` and the call
throws instead of returning normally. -/
theorem toggleCompletion_does_not_flip :
    ((RemindersHandler.construct.addReminder "Buy milk" "grocery").toggleCompletion 0).1
      = Except.error notImplementedError
    ∧ ((((RemindersHandler.construct.addReminder "Buy milk" "grocery").toggleCompletion 0).2)._reminders.getD 0 defaultReminder).isCompleted = false
    ∧ ((((RemindersHandler.construct.addReminder "Buy milk" "grocery").toggleCompletion 0).2)._reminders.getD 0 defaultReminder).isCompleted
      = ((RemindersHandler.construct.addReminder "Buy milk" "grocery")._reminders.getD 0 defaultReminder).isCompleted := by
  refine ⟨rfl, by decide, by decide⟩

/-- Claim C8, evaluated against the code at a concrete failing input: the
`tag` setter assigns the new tag and then throws
`Error("Not yet implemented")`, so `setTag` does raise an error, contradicting
the claim that no Reminder operation has an error condition. -/
theorem setTag_throws :
    (Reminder.setTag { description := "Buy milk", tag := "grocery", isCompleted := false }
      "Work").1 = Except.error notImplementedError
    ∧ (Reminder.setTag { description := "Buy milk", tag := "grocery", isCompleted := false }
      "Work").2.tag = "Work" := by
  refine ⟨rfl, by decide⟩

/-- Claim C1: `search keyword` is two-phase.  Phase one keeps exactly the
reminders whose lowercased tag equals the lowercased keyword; when that list
is non-empty it is returned as is (descriptions are never consulted), and only
when it is empty does the call return the reminders whose lowercased
description contains the lowercased keyword as a substring.  Both phases are
filters of the stored sequence, so results keep insertion order, which the
final `Sublist` conjunct records. -/
theorem search_spec (h : RemindersHandler) (keyword : String) :
    (h.search keyword =
      if (h._reminders.filter (fun r => jsToLowerCase r.tag == jsToLowerCase keyword)).isEmpty
      then h._reminders.filter
        (fun r => jsIncludes (jsToLowerCase r.description) (jsToLowerCase keyword))
      else h._reminders.filter (fun r => jsToLowerCase r.tag == jsToLowerCase keyword))
    ∧ List.Sublist (h.search keyword) h._reminders := by
  constructor
  · simp only [RemindersHandler.search, RemindersHandler.searchTags,
      RemindersHandler.searchDescriptions]
    by_cases hc :
        h._reminders.filter (fun r => jsToLowerCase r.tag == jsToLowerCase keyword) = []
    · simp [hc]
    · simp [hc, List.length_eq_zero]
  · simp only [RemindersHandler.search, RemindersHandler.searchTags,
      RemindersHandler.searchDescriptions]
    split
    · exact List.filter_sublist _
    · exact List.filter_sublist _

/-! ## Grouping lemmas for `groupByTag` -/

theorem lookupGroup_push (g : RemindersGroupingByTag) (tag k : String) (r : Reminder) :
    lookupGroup (groupingsPush g tag r) k =
      if k = tag then (lookupGroup g k).map (fun v => v ++ [r]) else lookupGroup g k := by
  induction g with
  | nil => simp [groupingsPush, lookupGroup]
  | cons p rest ih =>
      by_cases hp : p.1 = tag <;> by_cases hk : k = tag
      · subst hk
        simp [groupingsPush, lookupGroup, hp, ih]
      · have htk : ¬ tag = k := fun hc => hk hc.symm
        have hpk : ¬ p.1 = k := by rw [hp]; exact htk
        simp only [groupingsPush, lookupGroup, List.map_cons, beq_iff_eq, hp, hpk, hk, htk,
          if_true, if_false, ite_self]
        simpa [groupingsPush, hk] using ih
      · subst hk
        simp only [groupingsPush, lookupGroup, List.map_cons, beq_iff_eq, hp, if_false]
        simpa [groupingsPush] using ih
      · by_cases hpk : p.1 = k
        · simp [groupingsPush, lookupGroup, hp, hpk, hk, ih]
        · simp only [groupingsPush, lookupGroup, List.map_cons, beq_iff_eq, hp, hpk, hk,
            if_false]
          simpa [groupingsPush, hk] using ih

theorem lookupGroup_append_of_none {g : RemindersGroupingByTag} {k : String}
    (g2 : RemindersGroupingByTag) (hnone : lookupGroup g k = none) :
    lookupGroup (g ++ g2) k = lookupGroup g2 k := by
  induction g with
  | nil => simp
  | cons p rest ih =>
      simp only [lookupGroup] at hnone
      by_cases hp : p.1 = k
      · simp [hp] at hnone
      · simp only [List.cons_append, lookupGroup, beq_iff_eq, hp, if_false] at *
        exact ih hnone

theorem lookupGroup_append_of_some {g : RemindersGroupingByTag} {k : String}
    {v : List Reminder} (g2 : RemindersGroupingByTag) (hsome : lookupGroup g k = some v) :
    lookupGroup (g ++ g2) k = some v := by
  induction g with
  | nil => simp [lookupGroup] at hsome
  | cons p rest ih =>
      simp only [lookupGroup] at hsome
      by_cases hp : p.1 = k
      · simp only [List.cons_append, lookupGroup, beq_iff_eq, hp, if_true] at *
        exact hsome
      · simp only [List.cons_append, lookupGroup, beq_iff_eq, hp, if_false] at *
        exact ih hsome

theorem groupingsHasKey_iff (g : RemindersGroupingByTag) (tag : String) :
    groupingsHasKey g tag = true ↔ lookupGroup g tag ≠ none := by
  induction g with
  | nil => simp [groupingsHasKey, lookupGroup]
  | cons p rest ih =>
      by_cases hp : p.1 = tag
      · simp [groupingsHasKey, lookupGroup, hp]
      · simp only [groupingsHasKey, List.any_cons, Bool.or_eq_true, lookupGroup, beq_iff_eq,
          hp, if_false] at *
        simp [ih]

theorem lookupGroup_step (g : RemindersGroupingByTag) (r : Reminder) (k : String) :
    lookupGroup (groupingsStep g r) k =
      if k = jsToLowerCase r.tag
      then some (((lookupGroup g k).getD []) ++ [r])
      else lookupGroup g k := by
  unfold groupingsStep
  by_cases hkey : groupingsHasKey g (jsToLowerCase r.tag) = true
  · simp only [hkey, if_true]
    rw [lookupGroup_push]
    by_cases hk : k = jsToLowerCase r.tag
    · have hne := (groupingsHasKey_iff g (jsToLowerCase r.tag)).mp hkey
      rcases Option.ne_none_iff_exists'.mp hne with ⟨v, hv⟩
      rw [hk]
      simp [hv]
    · simp [hk]
  · simp only [Bool.not_eq_true] at hkey
    simp only [hkey, Bool.false_eq_true, if_false]
    rw [lookupGroup_push]
    have hnone : lookupGroup g (jsToLowerCase r.tag) = none := by
      by_contra hc
      have := (groupingsHasKey_iff g (jsToLowerCase r.tag)).mpr hc
      rw [hkey] at this
      cases this
    by_cases hk : k = jsToLowerCase r.tag
    · subst hk
      rw [lookupGroup_append_of_none _ hnone]
      simp [lookupGroup, hnone]
    · simp only [hk, if_false]
      cases hl : lookupGroup g k with
      | some v => exact lookupGroup_append_of_some _ hl
      | none =>
          rw [lookupGroup_append_of_none _ hl]
          have : ¬(jsToLowerCase r.tag = k) := fun hc => hk hc.symm
          simp [lookupGroup, this]

theorem lookupGroup_foldl (rs : List Reminder) :
    ∀ (g : RemindersGroupingByTag) (k : String),
      lookupGroup (rs.foldl groupingsStep g) k =
        match lookupGroup g k with
        | some v => some (v ++ rs.filter (fun r => jsToLowerCase r.tag == k))
        | none =>
            if (rs.filter (fun r => jsToLowerCase r.tag == k)).isEmpty then none
            else some (rs.filter (fun r => jsToLowerCase r.tag == k)) := by
  induction rs with
  | nil =>
      intro g k
      cases hl : lookupGroup g k <;> simp [hl]
  | cons r rest ih =>
      intro g k
      simp only [List.foldl_cons, List.filter_cons]
      rw [ih (groupingsStep g r) k, lookupGroup_step]
      by_cases hk : k = jsToLowerCase r.tag
      · have hcond : (jsToLowerCase r.tag == k) = true := by simp [hk]
        simp only [hk, if_true, hcond]
        cases hl : lookupGroup g k with
        | some v =>
            simp only [hk] at hl
            simp [hl]
        | none =>
            simp only [hk] at hl
            simp [hl]
      · have hcond : (jsToLowerCase r.tag == k) = false := by
          simp only [beq_eq_false_iff_ne, ne_eq]
          exact fun hc => hk hc.symm
        simp only [hk, if_false, hcond]
        cases hl : lookupGroup g k with
        | some v => simp [hl]
        | none => simp [hl]

theorem groupingsPush_keys (g : RemindersGroupingByTag) (tag : String) (r : Reminder) :
    (groupingsPush g tag r).map Prod.fst = g.map Prod.fst := by
  simp only [groupingsPush, List.map_map]
  congr 1
  funext p
  by_cases hp : p.1 = tag <;> simp [hp]

theorem groupingsStep_keys (g : RemindersGroupingByTag) (r : Reminder) :
    (groupingsStep g r).map Prod.fst =
      if groupingsHasKey g (jsToLowerCase r.tag) = true then g.map Prod.fst
      else g.map Prod.fst ++ [jsToLowerCase r.tag] := by
  unfold groupingsStep
  by_cases hkey : groupingsHasKey g (jsToLowerCase r.tag) = true
  · simp [hkey, groupingsPush_keys]
  · simp only [Bool.not_eq_true] at hkey
    simp [hkey, groupingsPush_keys]

theorem groupingsHasKey_iff_mem (g : RemindersGroupingByTag) (tag : String) :
    groupingsHasKey g tag = true ↔ tag ∈ g.map Prod.fst := by
  simp [groupingsHasKey, List.any_eq_true, List.mem_map]

theorem groupByTag_keys_nodup_aux (rs : List Reminder) :
    ∀ g : RemindersGroupingByTag, (g.map Prod.fst).Nodup →
      ((rs.foldl groupingsStep g).map Prod.fst).Nodup := by
  induction rs with
  | nil => intro g hg; simpa
  | cons r rest ih =>
      intro g hg
      simp only [List.foldl_cons]
      apply ih
      rw [groupingsStep_keys]
      by_cases hkey : groupingsHasKey g (jsToLowerCase r.tag) = true
      · simpa [hkey] using hg
      · have hmem : jsToLowerCase r.tag ∉ g.map Prod.fst := by
          intro hmem
          exact hkey ((groupingsHasKey_iff_mem g _).mpr hmem)
        simp only [Bool.not_eq_true] at hkey
        simp only [hkey, Bool.false_eq_true, if_false]
        rw [List.nodup_append]
        refine ⟨hg, List.nodup_singleton _, ?_⟩
        intro a ha hb
        rw [List.mem_singleton] at hb
        subst hb
        exact hmem ha

/-- Claim C2: `groupByTag` returns a grouping whose keys are pairwise distinct
and are exactly the lowercased tags occurring among the stored reminders — the
lookup of `k` is `some` exactly when some reminder's lowercased tag is `k`, so
there is no empty group; the group under `k` is the insertion-ordered list of
the reminders whose lowercased tag equals `k` (tags differing only in case
share a group); and every stored reminder belongs to the group of its own
lowercased tag. -/
theorem groupByTag_spec (h : RemindersHandler) (k : String) :
    ((h.groupByTag.map Prod.fst).Nodup)
    ∧ (lookupGroup h.groupByTag k =
        if (h._reminders.filter (fun r => jsToLowerCase r.tag == k)).isEmpty then none
        else some (h._reminders.filter (fun r => jsToLowerCase r.tag == k)))
    ∧ (∀ r, r ∈ h._reminders →
        ∃ v, lookupGroup h.groupByTag (jsToLowerCase r.tag) = some v ∧ r ∈ v) := by
  refine ⟨?_, ?_, ?_⟩
  · exact groupByTag_keys_nodup_aux h._reminders [] (by simp)
  · have hc := lookupGroup_foldl h._reminders [] k
    simpa [RemindersHandler.groupByTag, lookupGroup] using hc
  · intro r hr
    have hmem : r ∈ h._reminders.filter (fun x => jsToLowerCase x.tag == jsToLowerCase r.tag) := by
      simp [List.mem_filter, hr]
    have hch := lookupGroup_foldl h._reminders [] (jsToLowerCase r.tag)
    simp only [lookupGroup] at hch
    have hne : (h._reminders.filter
        (fun x => jsToLowerCase x.tag == jsToLowerCase r.tag)).isEmpty = false := by
      rcases he : (h._reminders.filter
          (fun x => jsToLowerCase x.tag == jsToLowerCase r.tag)).isEmpty with _ | _
      · exact he
      · rw [List.isEmpty_eq_true] at he
        rw [he] at hmem
        cases hmem
    rw [hne] at hch
    simp only [Bool.false_eq_true, if_false] at hch
    exact ⟨_, hch, hmem⟩

/-- Witness for C2's membership conjunct at a concrete state: with reminders
tagged `"Work"` and `"work"`, each lands in the group under `"work"`. -/
theorem groupByTag_spec_witness :
    ∃ v, lookupGroup
        ((RemindersHandler.construct.addReminder "a" "Work").addReminder "b" "work").groupByTag
        (jsToLowerCase (Reminder.construct "a" "Work" none).tag) = some v
      ∧ Reminder.construct "a" "Work" none ∈ v := by
  exact (groupByTag_spec ((RemindersHandler.construct.addReminder "a" "Work").addReminder
    "b" "work") "work").2.2 (Reminder.construct "a" "Work" none) (by decide)

/-! ## Heap lemmas for the `reminders` accessor -/

theorem JsHeap.read_alloc (hp : JsHeap) (c : List Nat) :
    (hp.alloc c).1.read (hp.alloc c).2 = c := by
  simp [JsHeap.alloc, JsHeap.read, List.getD_eq_getElem?_getD, List.getElem?_append_right]

theorem JsHeap.read_alloc_old (hp : JsHeap) (c : List Nat) (i : Nat)
    (hi : i < hp.cells.length) : (hp.alloc c).1.read i = hp.read i := by
  simp [JsHeap.alloc, JsHeap.read, List.getD_eq_getElem?_getD, List.getElem?_append_left hi]

theorem JsHeap.read_write_ne (hp : JsHeap) (i j : Nat) (c : List Nat) (hij : j ≠ i) :
    (hp.write j c).read i = hp.read i := by
  simp [JsHeap.write, JsHeap.read, List.getD_eq_getElem?_getD, List.getElem?_set_ne hij]

theorem JsHeap.read_write_self (hp : JsHeap) (j : Nat) (c : List Nat)
    (hj : j < hp.cells.length) : (hp.write j c).read j = c := by
  simp [JsHeap.write, JsHeap.read, List.getD_eq_getElem?_getD, List.getElem?_set_self hj]

/-- Claim C9: the `reminders` accessor returns a fresh array that is a shallow
copy of the internal one — its elements are the same reminder objects (ids);
pushing onto or popping from the returned array leaves the handler's own
array (hence `size()`) untouched, while the push is visible on the copy. -/
theorem reminders_accessor_defensive (hp : JsHeap) (ref : Nat)
    (href : ref < hp.cells.length) (x : Nat) :
    ((remindersAccessor hp ref).1.read (remindersAccessor hp ref).2 = hp.read ref)
    ∧ (((remindersAccessor hp ref).1.push (remindersAccessor hp ref).2 x).read ref
        = hp.read ref)
    ∧ (((remindersAccessor hp ref).1.push (remindersAccessor hp ref).2 x).read
        (remindersAccessor hp ref).2 = hp.read ref ++ [x])
    ∧ (((remindersAccessor hp ref).1.pop (remindersAccessor hp ref).2).read ref
        = hp.read ref) := by
  have hcopy : (remindersAccessor hp ref).2 = hp.cells.length := rfl
  refine ⟨?_, ?_, ?_, ?_⟩
  · exact JsHeap.read_alloc hp (hp.read ref)
  · rw [JsHeap.push, JsHeap.read_write_ne]
    · exact JsHeap.read_alloc_old hp _ ref href
    · rw [hcopy]; omega
  · rw [JsHeap.push, JsHeap.read_write_self]
    · rw [show (remindersAccessor hp ref).1.read (remindersAccessor hp ref).2 = hp.read ref
        from JsHeap.read_alloc hp (hp.read ref)]
    · rw [hcopy]
      simp [remindersAccessor, JsHeap.alloc]
  · rw [JsHeap.pop, JsHeap.read_write_ne]
    · exact JsHeap.read_alloc_old hp _ ref href
    · rw [hcopy]; omega

/-- Witness for C9 at a concrete heap: one stored array `[5]`, pushing `7`
onto the accessor's copy leaves the stored array unchanged. -/
theorem reminders_accessor_defensive_witness :
    ((remindersAccessor (JsHeap.mk [[5]]) 0).1.push
      (remindersAccessor (JsHeap.mk [[5]]) 0).2 7).read 0 = (JsHeap.mk [[5]]).read 0 := by
  exact (reminders_accessor_defensive (JsHeap.mk [[5]]) 0 (by decide) 7).2.1

/-! ## Reachability invariant for the completion flag -/

theorem reminder_getD_not_completed {l : List Reminder}
    (hall : ∀ r ∈ l, r.isCompleted = false) (n : Nat) :
    (l.getD n defaultReminder).isCompleted = false := by
  rw [List.getD_eq_getElem?_getD]
  cases hx : l[n]? with
  | none => simp [defaultReminder]
  | some r => simpa using hall r (List.getElem?_mem hx)

theorem applyOp_preserves {h : RemindersHandler} (op : HandlerOp)
    (hall : ∀ r ∈ h._reminders, r.isCompleted = false) :
    ∀ r ∈ (h.applyOp op)._reminders, r.isCompleted = false := by
  cases op with
  | add d t =>
      intro r hr
      simp only [RemindersHandler.applyOp, RemindersHandler.addReminder] at hr
      rcases List.mem_append.mp hr with hr | hr
      · exact hall r hr
      · rw [List.mem_singleton] at hr
        subst hr
        rfl
  | modify i d =>
      intro r hr
      simp only [RemindersHandler.applyOp, RemindersHandler.modifyReminder] at hr
      by_cases hv : h.isIndexValid i
      · simp only [hv, Bool.not_true, Bool.false_eq_true, if_false] at hr
        rcases List.mem_or_eq_of_mem_set hr with hr | hr
        · exact hall r hr
        · subst hr
          exact reminder_getD_not_completed hall i.toNat
      · simp only [Bool.not_eq_true] at hv
        simp only [hv, Bool.not_false, if_true] at hr
        exact hall r hr
  | toggle i =>
      intro r hr
      simp only [RemindersHandler.applyOp, RemindersHandler.toggleCompletion] at hr
      by_cases hv : h.isIndexValid i
      · simp only [hv, Bool.not_true, Bool.false_eq_true, if_false] at hr
        rcases List.mem_or_eq_of_mem_set hr with hr | hr
        · exact hall r hr
        · subst hr
          exact reminder_getD_not_completed hall i.toNat
      · simp only [Bool.not_eq_true] at hv
        simp only [hv, Bool.not_false, if_true] at hr
        exact hall r hr
  | setDescriptionAt i d =>
      intro r hr
      simp only [RemindersHandler.applyOp] at hr
      by_cases hv : h.isIndexValid i
      · simp only [hv, if_true] at hr
        rcases List.mem_or_eq_of_mem_set hr with hr | hr
        · exact hall r hr
        · subst hr
          exact reminder_getD_not_completed hall i.toNat
      · simp only [Bool.not_eq_true] at hv
        simp only [hv, Bool.false_eq_true, if_false] at hr
        exact hall r hr
  | setTagAt i t =>
      intro r hr
      simp only [RemindersHandler.applyOp] at hr
      by_cases hv : h.isIndexValid i
      · simp only [hv, if_true] at hr
        rcases List.mem_or_eq_of_mem_set hr with hr | hr
        · exact hall r hr
        · subst hr
          exact reminder_getD_not_completed hall i.toNat
      · simp only [Bool.not_eq_true] at hv
        simp only [hv, Bool.false_eq_true, if_false] at hr
        exact hall r hr

theorem runOps_preserves (ops : List HandlerOp) :
    ∀ h : RemindersHandler, (∀ r ∈ h._reminders, r.isCompleted = false) →
      ∀ r ∈ (h.runOps ops)._reminders, r.isCompleted = false := by
  induction ops with
  | nil => intro h hall; simpa [RemindersHandler.runOps] using hall
  | cons op rest ih =>
      intro h hall
      have h1 := applyOp_preserves op hall
      have h2 := ih (h.applyOp op) h1
      simpa [RemindersHandler.runOps] using h2

/-- Claim C10: in every state reachable from a fresh handler by any sequence
of system operations, every stored reminder has `isCompleted = false`; the
constructor assigns `false` regardless of its `isCompleted` argument; and
`Reminder.toggleCompletion` writes the field's current value back (leaving the
record unchanged) and throws, so nothing ever makes the flag `true`. -/
theorem isCompleted_always_false (ops : List HandlerOp) :
    (∀ r, r ∈ (RemindersHandler.construct.runOps ops)._reminders → r.isCompleted = false)
    ∧ (∀ d t : String, ∀ b : Option Bool, (Reminder.construct d t b).isCompleted = false)
    ∧ (∀ r : Reminder, (r.toggleCompletion).2 = r
        ∧ (r.toggleCompletion).1 = Except.error notImplementedError) := by
  refine ⟨?_, fun d t b => rfl, fun r => ⟨rfl, rfl⟩⟩
  exact runOps_preserves ops RemindersHandler.construct (by intro r hr; cases hr)

/-- Witness for C10 at a concrete run: after an add, a toggle and a tag edit,
the stored reminder still has `isCompleted = false`. -/
theorem isCompleted_always_false_witness :
    ((RemindersHandler.construct.runOps
        [HandlerOp.add "Buy milk" "grocery", HandlerOp.toggle 0,
          HandlerOp.setTagAt 0 "Work"])._reminders.getD 0 defaultReminder).isCompleted
      = false := by
  exact (isCompleted_always_false
    [HandlerOp.add "Buy milk" "grocery", HandlerOp.toggle 0, HandlerOp.setTagAt 0 "Work"]).1
    _ (by decide)
